import Mathlib

/-!
Verification of the realtime-path-renderer core pipeline.

Shallow embedding of:
* `src/src/workers/dataProcessor.worker.js` — binary codec (`parseRawPoints`,
  `pointsToArrayBuffer`) and spatial reducer (`applyLOD`);
* `RobotPathManager` (entity path store: `addRobot`, `addPoint`, `addPoints`,
  `clearAll`, `getBoundingBox`);
* `src/src/renderer/WebGLRenderer.js` — buffer packer (`_packRobotsToStaging`)
  and the dirty-flag state machine (`updatePoints`, `clear`, `renderRobotPaths`).

Modelling conventions:
* JS numbers (IEEE-754 doubles holding f32 data) are modelled as exact
  rationals `ℚ`; "up to f32 round-trip" equality becomes exact equality.
* A binary `ArrayBuffer`/`DataView` is modelled through its read accessors
  (`WireBuffer`): a byte length plus the value each typed read returns at a
  byte offset.  The decoder only ever touches a buffer through
  `getUint32`/`getFloat32`/`getUint8`, so this abstraction captures exactly
  what the source can observe.
* JS `Float32Array` buffers are modelled as total functions `Nat → ℚ`
  (zero-initialised, like a fresh typed array).
* Fallible operations (`DataView`/`Float32Array` constructor range errors)
  return `Except String`.
-/

/-- A decoded point as built by `parseRawPoints`:
`{ x, y, r, g, b, a, robotId }`, all read as f32 (`robotId` included). -/
structure WirePoint where
  x : ℚ
  y : ℚ
  r : ℚ
  g : ℚ
  b : ℚ
  a : ℚ
  robotId : ℚ
deriving DecidableEq, Inhabited

/-- A binary buffer, abstracted by its DataView read accessors.
`u32At`/`f32At`/`u8At off` is the value `getUint32/getFloat32/getUint8`
returns at byte offset `off` (all little-endian in the source). -/
structure WireBuffer where
  byteLength : Nat
  u32At : Nat → Nat
  f32At : Nat → ℚ
  u8At : Nat → Nat

/-- JS `v || d` on numbers: `v` when truthy (nonzero), else `d`. -/
def jsOr (v d : ℚ) : ℚ := if v = 0 then d else v

/-- The value `pointsToArrayBuffer` writes for field `j` (0..6) of a point:
`x || projX || 0`, `y || projY || 0`, `r || 1.0`, `g || 1.0`, `b || 1.0`,
`a || 1.0`, `robotId || 0`.  A `WirePoint` carries no `projX`/`projY`
(those exist only after `projectPoints`), so the `x` fallback chain ends at
`0`. -/
def encodeField (p : WirePoint) (j : Nat) : ℚ :=
  match j with
  | 0 => jsOr p.x 0
  | 1 => jsOr p.y 0
  | 2 => jsOr p.r 1
  | 3 => jsOr p.g 1
  | 4 => jsOr p.b 1
  | 5 => jsOr p.a 1
  | _ => jsOr p.robotId 0

/-- f32 read-back of the buffer written by `pointsToArrayBuffer`: point `i`
occupies bytes `[4 + 28*i, 4 + 28*(i+1))`, field `j` at `4 + 28*i + 4*j`. -/
def encF32 (ps : List WirePoint) (off : Nat) : ℚ :=
  if off < 4 then 0
  else
    let k := (off - 4) / 4
    if (off - 4) % 4 = 0 ∧ k / 7 < ps.length then
      encodeField (ps.getD (k / 7) default) (k % 7)
    else 0

/-- `pointsToArrayBuffer(points)`: header = u32 point count at offset 0,
then 28 bytes (7 × f32) per point. -/
def pointsToArrayBuffer (ps : List WirePoint) : WireBuffer where
  byteLength := 4 + ps.length * 28
  u32At := fun off => if off = 0 then ps.length else 0
  f32At := encF32 ps
  u8At := fun _ => 0

/-- One extended-layout (28-byte) record read at index `i`
(also the fallback read: `floats[7*i + j]` sits at byte `4 + 4*(7*i + j)
= 4 + 28*i + 4*j`, identical offsets). -/
def readExtPoint (b : WireBuffer) (i : Nat) : WirePoint where
  x := b.f32At (4 + 28 * i)
  y := b.f32At (4 + 28 * i + 4)
  r := b.f32At (4 + 28 * i + 8)
  g := b.f32At (4 + 28 * i + 12)
  b := b.f32At (4 + 28 * i + 16)
  a := b.f32At (4 + 28 * i + 20)
  robotId := b.f32At (4 + 28 * i + 24)

/-- One legacy-layout (12-byte) record read at index `i`:
2 × f32 position, 4 × u8 color normalised by `/255`, `robotId` 0. -/
def readLegacyPoint (b : WireBuffer) (i : Nat) : WirePoint where
  x := b.f32At (4 + 12 * i)
  y := b.f32At (4 + 12 * i + 4)
  r := (b.u8At (4 + 12 * i + 8) : ℚ) / 255
  g := (b.u8At (4 + 12 * i + 9) : ℚ) / 255
  b := (b.u8At (4 + 12 * i + 10) : ℚ) / 255
  a := (b.u8At (4 + 12 * i + 11) : ℚ) / 255
  robotId := 0

/-- `parseRawPoints` (binary branch).  Reads the u32 count, then selects the
layout by exact byte-size match; otherwise falls back to viewing the payload
as a flat f32 array and decoding `floor(len/7)` extended points.
`getUint32(0)` throws a RangeError when the buffer is shorter than 4 bytes,
and `new Float32Array(buffer, 4)` throws when the payload length is not a
multiple of 4; both surface as `.error`. -/
def parseRawPoints (buf : WireBuffer) : Except String (List WirePoint) :=
  if buf.byteLength < 4 then
    .error "RangeError: Offset is outside the bounds of the DataView"
  else
    let pointCount := buf.u32At 0
    let payloadBytes := buf.byteLength - 4
    if payloadBytes = pointCount * 28 then
      .ok ((List.range pointCount).map (readExtPoint buf))
    else if payloadBytes = pointCount * 12 then
      .ok ((List.range pointCount).map (readLegacyPoint buf))
    else if payloadBytes % 4 = 0 then
      .ok ((List.range (payloadBytes / 4 / 7)).map (readExtPoint buf))
    else
      .error "RangeError: byte length of Float32Array should be a multiple of 4"

deriving instance DecidableEq for Except

/-- What one encode→decode pass does to a single point: positions and ids
survive (`v || 0` is the identity), but a zero color channel is replaced by
`1.0` (`v || 1.0`). -/
def roundtripPoint (p : WirePoint) : WirePoint where
  x := jsOr p.x 0
  y := jsOr p.y 0
  r := jsOr p.r 1
  g := jsOr p.g 1
  b := jsOr p.b 1
  a := jsOr p.a 1
  robotId := jsOr p.robotId 0

/-- The red point of the spec's own scenario (`r=1,g=0,b=0,a=1`). -/
def c1Point : WirePoint := ⟨0, 0, 1, 0, 0, 1, 0⟩

/-- A concrete legacy-layout buffer: 16 bytes, count 1, payload 12 = 1·12. -/
def c2Legacy : WireBuffer :=
  { byteLength := 16
    u32At := fun _ => 1
    f32At := fun off => (off : ℚ)
    u8At := fun off => off }

/-- A 5-byte buffer whose header says 1 point: payload is 1 byte, matching
neither layout, and `new Float32Array(buffer, 4)` throws. -/
def c2Bad : WireBuffer :=
  { byteLength := 5, u32At := fun _ => 1, f32At := fun _ => 0, u8At := fun _ => 0 }

/-!
### Spatial reducer: `applyLOD`

The source builds a uniform grid keyed by the string `"cellX,cellY"` in a JS
`Map`; the key is modelled by the pair `(cellX, cellY) : ℤ × ℤ` (the string
encoding is injective on integer pairs) and the `Map` by an insertion-ordered
association list.  `Math.log` (used only for the centroid's alpha boost) is
transcendental and has no exact rational counterpart, so it is taken as a
parameter `mathLog`; no claim depends on its values.
-/

/-- Squared Euclidean distance, `(p.x - q.x) ** 2 + (p.y - q.y) ** 2`. -/
def distSq (p q : WirePoint) : ℚ := (p.x - q.x) ^ 2 + (p.y - q.y) ^ 2

/-- Grid cell of a point: `(Math.floor(x / cellSize), Math.floor(y / cellSize))`. -/
def cellKey (cellSize : ℚ) (p : WirePoint) : ℤ × ℤ :=
  (⌊p.x / cellSize⌋, ⌊p.y / cellSize⌋)

/-- The spatial-hash grid: insertion-ordered list of (cell, point indices). -/
abbrev Grid := List ((ℤ × ℤ) × List Nat)

/-- `grid.get(key)`, empty when the cell is absent. -/
def gridFind (g : Grid) (key : ℤ × ℤ) : List Nat :=
  match g with
  | [] => []
  | (k, l) :: rest => if k = key then l else gridFind rest key

/-- `grid.get(key).push(i)`, creating the cell at the end of the map when
absent (JS `Map` insertion order). -/
def gridInsert (g : Grid) (key : ℤ × ℤ) (i : Nat) : Grid :=
  match g with
  | [] => [(key, [i])]
  | (k, l) :: rest =>
    if k = key then (k, l ++ [i]) :: rest else (k, l) :: gridInsert rest key i

/-- First pass of `applyLOD`: assign every point index to its grid cell. -/
def buildGrid (points : List WirePoint) (cellSize : ℚ) : Grid :=
  (List.range points.length).foldl
    (fun g i => gridInsert g (cellKey cellSize (points.getD i default)) i) []

/-- The 3×3 neighborhood visited for a seed cell, in source order
(`dx` outer loop from -1 to 1, `dy` inner). -/
def neighborKeys (c : ℤ × ℤ) : List (ℤ × ℤ) :=
  [(c.1 - 1, c.2 - 1), (c.1 - 1, c.2), (c.1 - 1, c.2 + 1),
   (c.1, c.2 - 1), (c.1, c.2), (c.1, c.2 + 1),
   (c.1 + 1, c.2 - 1), (c.1 + 1, c.2), (c.1 + 1, c.2 + 1)]

/-- Inner scan of one cell: each unprocessed index within `dSq` of the seed
is appended to the cluster and marked processed.  State is
`(cluster members so far, processed set)`. -/
def collectCell (points : List WirePoint) (seed : WirePoint) (dSq : ℚ) :
    List Nat → List Nat × List Nat → List Nat × List Nat
  | [], acc => acc
  | j :: rest, (cluster, processed) =>
    if j ∈ processed then
      collectCell points seed dSq rest (cluster, processed)
    else if distSq seed (points.getD j default) ≤ dSq then
      collectCell points seed dSq rest (cluster ++ [j], processed ++ [j])
    else
      collectCell points seed dSq rest (cluster, processed)

/-- Scan of the 9 neighbor cells of the seed, in source order. -/
def collectNeighbors (points : List WirePoint) (seed : WirePoint) (dSq : ℚ)
    (g : Grid) (keys : List (ℤ × ℤ)) (acc : List Nat × List Nat) :
    List Nat × List Nat :=
  keys.foldl (fun acc key => collectCell points seed dSq (gridFind g key) acc) acc

/-- Outer clustering loop over the flattened grid values: each unprocessed
index seeds a cluster `(seed, members)` collected from its 3×3 neighborhood. -/
def lodLoop (points : List WirePoint) (dSq cellSize : ℚ) (g : Grid) :
    List Nat → List Nat → List (Nat × List Nat)
  | [], _ => []
  | i :: rest, processed =>
    if i ∈ processed then
      lodLoop points dSq cellSize g rest processed
    else
      let seed := points.getD i default
      let res := collectNeighbors points seed dSq g
        (neighborKeys (cellKey cellSize seed)) ([], processed ++ [i])
      (i, res.1) :: lodLoop points dSq cellSize g rest res.2

/-- The clusters `applyLOD` forms (seed index, member indices), in output
order.  Iteration is over `grid.values()` flattened, matching the source. -/
def lodClusters (points : List WirePoint) (cellSize dSq : ℚ) :
    List (Nat × List Nat) :=
  let g := buildGrid points cellSize
  lodLoop points dSq cellSize g ((g.map Prod.snd).flatten) []

/-- Centroid of one cluster: arithmetic mean of x, y and color channels,
alpha boosted by `min(1, meanA * (1 + log(count) * 0.1))`, robotId taken
from the seed (`point.robotId || 0`). -/
def centroidOf (mathLog : ℚ → ℚ) (points : List WirePoint)
    (cl : Nat × List Nat) : WirePoint :=
  let members := (cl.1 :: cl.2).map (fun j => points.getD j default)
  let n : ℚ := members.length
  { x := (members.map WirePoint.x).sum / n
    y := (members.map WirePoint.y).sum / n
    r := (members.map WirePoint.r).sum / n
    g := (members.map WirePoint.g).sum / n
    b := (members.map WirePoint.b).sum / n
    a := min 1 (((members.map WirePoint.a).sum / n) * (1 + mathLog n * (1 / 10)))
    robotId := jsOr (points.getD cl.1 default).robotId 0 }

/-- `applyLOD(points, scale)`: identity below the activity thresholds,
otherwise grid-based clustering with merge distance
`d = lodThreshold / scale`, cell size `2d`, merging at squared distance
`≤ d²` from the seed. -/
def applyLOD (mathLog : ℚ → ℚ) (lodThreshold : ℚ) (points : List WirePoint)
    (scale : ℚ) : List WirePoint :=
  if points.length < 100 ∨ 1 / 2 < scale then points
  else
    let mergeDistance := lodThreshold / scale
    let mergeDistanceSq := mergeDistance * mergeDistance
    let cellSize := mergeDistance * 2
    (lodClusters points cellSize mergeDistanceSq).map (centroidOf mathLog points)

/-!
### Entity path store: `RobotPathManager`

`Float32Array(n)` buffers are modelled as total zero-initialised functions
`Nat → ℚ`; the JS `Map` of robots as an insertion-ordered association list
(`Map.set` of a fresh key appends, of an existing key updates in place).
The per-robot `points: []` array is dead state in the source (never read)
and is omitted.
-/

/-- An rgba color from the manager's color pool. -/
structure Color4 where
  r : ℚ
  g : ℚ
  b : ℚ
  a : ℚ
deriving DecidableEq, Inhabited

/-- One robot's path state, as created by `RobotPathManager.addRobot`. -/
structure Robot where
  id : Nat
  color : Color4
  vertices : Nat → ℚ
  colors : Nat → ℚ
  pointCount : Nat
  startPosition : Option (ℚ × ℚ)
  currentPosition : Option (ℚ × ℚ)
  isActive : Bool

/-- The robot path manager state. -/
structure RobotPathManager where
  maxRobots : Nat
  maxPointsPerRobot : Nat
  robots : List (Nat × Robot)
  focusedRobotId : Nat

/-- The ten-entry color pool from `generateColorPool`. -/
def colorPool : List Color4 :=
  [⟨1, 1 / 5, 1 / 5, 9 / 10⟩, ⟨1 / 5, 1, 1 / 5, 9 / 10⟩, ⟨1 / 5, 1 / 5, 1, 9 / 10⟩,
   ⟨1, 1, 1 / 5, 9 / 10⟩, ⟨1, 1 / 5, 1, 9 / 10⟩, ⟨1 / 5, 1, 1, 9 / 10⟩,
   ⟨1, 3 / 5, 1 / 5, 9 / 10⟩, ⟨3 / 5, 1 / 5, 1, 9 / 10⟩, ⟨1, 2 / 5, 7 / 10, 9 / 10⟩,
   ⟨2 / 5, 1, 2 / 5, 9 / 10⟩]

/-- `new RobotPathManager(maxRobots, maxPointsPerRobot)`. -/
def mkRobotPathManager (maxRobots maxPointsPerRobot : Nat) : RobotPathManager :=
  { maxRobots := maxRobots
    maxPointsPerRobot := maxPointsPerRobot
    robots := []
    focusedRobotId := 0 }

/-- Lookup in the insertion-ordered robot map. -/
def findRobot (l : List (Nat × Robot)) (robotId : Nat) : Option Robot :=
  match l with
  | [] => none
  | (k, r) :: rest => if k = robotId then some r else findRobot rest robotId

/-- `this.robots.get(robotId)`. -/
def mgrFind (m : RobotPathManager) (robotId : Nat) : Option Robot :=
  findRobot m.robots robotId

/-- `this.robots.set(robotId, r)` for a key already present: in-place update
preserving map order. -/
def mgrSet (m : RobotPathManager) (robotId : Nat) (r : Robot) : RobotPathManager :=
  { m with robots := m.robots.map (fun kv => if kv.1 = robotId then (kv.1, r) else kv) }

/-- The robot record `addRobot` creates: next pool color
(`robots.size % colorPool.length`), zeroed `Float32Array` buffers, empty
counters. -/
def freshRobot (m : RobotPathManager) (robotId : Nat) : Robot :=
  { id := robotId
    color := colorPool.getD (m.robots.length % colorPool.length) default
    vertices := fun _ => 0
    colors := fun _ => 0
    pointCount := 0
    startPosition := none
    currentPosition := none
    isActive := true }

/-- `RobotPathManager.addRobot(robotId)`: look up, or create a fresh robot
with the next pool color and zeroed buffers.  NOTE: the source stores
`this.maxRobots` but never consults it here — creation is unconditional. -/
def RobotPathManager.addRobot (m : RobotPathManager) (robotId : Nat) :
    RobotPathManager × Robot :=
  match mgrFind m robotId with
  | some r => (m, r)
  | none =>
    let r := freshRobot m robotId
    ({ m with robots := m.robots ++ [(robotId, r)] }, r)

/-- Pointwise update of a modelled typed array. -/
def fnUpdate (f : Nat → ℚ) (i : Nat) (v : ℚ) : Nat → ℚ :=
  fun j => if j = i then v else f j

/-- `arr.copyWithin(0, step)` on an array of length `len`: every slot below
`len - step` takes the value `step` slots to its right; the tail keeps its
old (now stale, never-read) values. -/
def copyWithinLeft (f : Nat → ℚ) (len step : Nat) : Nat → ℚ :=
  fun j => if j + step < len then f (j + step) else f j

/-- The body of `RobotPathManager.addPoint` acting on the fetched robot:
record start/current position, evict the oldest point by a left shift when
at capacity, then append `(x, y)` and the color (`color || robot.color`). -/
def addPointToRobot (cap : Nat) (r : Robot) (x y : ℚ) (color : Option Color4) :
    Robot :=
  let r₁ := { r with
    startPosition := match r.startPosition with
      | some s => some s
      | none => some (x, y)
    currentPosition := some (x, y) }
  let r₂ :=
    if cap ≤ r₁.pointCount then
      { r₁ with
        vertices := copyWithinLeft r₁.vertices (2 * cap) 2
        colors := copyWithinLeft r₁.colors (4 * cap) 4
        pointCount := r₁.pointCount - 1 }
    else r₁
  let vi := 2 * r₂.pointCount
  let ci := 4 * r₂.pointCount
  let c := color.getD r₂.color
  { r₂ with
    vertices := fnUpdate (fnUpdate r₂.vertices vi x) (vi + 1) y
    colors := fnUpdate (fnUpdate (fnUpdate (fnUpdate r₂.colors ci c.r)
      (ci + 1) c.g) (ci + 2) c.b) (ci + 3) c.a
    pointCount := r₂.pointCount + 1 }

/-- `RobotPathManager.addPoint(robotId, x, y, color)`: look up or lazily
create the robot (no `maxRobots` bound is enforced), then append. -/
def RobotPathManager.addPoint (m : RobotPathManager) (robotId : Nat)
    (x y : ℚ) (color : Option Color4) : RobotPathManager :=
  let mr := m.addRobot robotId
  mgrSet mr.1 robotId (addPointToRobot m.maxPointsPerRobot mr.2 x y color)

/-- Insert into a sorted list of ids (used to model JS object integer-key
enumeration order, which is ascending). -/
def insertSorted (i : Nat) : List Nat → List Nat
  | [] => [i]
  | j :: rest => if i ≤ j then i :: j :: rest else j :: insertSorted i rest

/-- The distinct robot ids of a batch in ascending order — the enumeration
order of `Object.entries(grouped)` for integer-like keys. -/
def groupedIds (ids : List Nat) : List Nat :=
  ids.foldl (fun acc i => if i ∈ acc then acc else insertSorted i acc) []

/-- A point as parsed by `WebGLRenderer.updatePoints` (robotId already
floored to an integer). -/
structure RPoint where
  x : ℚ
  y : ℚ
  r : ℚ
  g : ℚ
  b : ℚ
  a : ℚ
  robotId : Nat
deriving DecidableEq, Inhabited

/-- `RobotPathManager.addPoints(points)`: group by robotId (JS object with
numeric keys — ascending enumeration), then `addPoint` in arrival order per
robot.  These points carry no `.color` property, so the source's
`point.color ? [...] : null` always passes `null`. -/
def RobotPathManager.addPoints (m : RobotPathManager) (pts : List RPoint) :
    RobotPathManager :=
  (groupedIds (pts.map RPoint.robotId)).foldl
    (fun m id =>
      (pts.filter (fun p => p.robotId = id)).foldl
        (fun m p => m.addPoint id p.x p.y none) m)
    m

/-- `clearRobotPath(robotId)`: reset count and position markers; the
underlying arrays are not zeroed. -/
def RobotPathManager.clearRobotPath (m : RobotPathManager) (robotId : Nat) :
    RobotPathManager :=
  match mgrFind m robotId with
  | none => m
  | some r =>
    mgrSet m robotId
      { r with pointCount := 0, startPosition := none, currentPosition := none }

/-- `clearAll()`: `clearRobotPath` for every robot. -/
def RobotPathManager.clearAll (m : RobotPathManager) : RobotPathManager :=
  { m with robots := m.robots.map (fun kv =>
      (kv.1,
        { kv.2 with
          pointCount := 0
          startPosition := none
          currentPosition := none })) }

/-- `getActiveRobots()`: the robots with `isActive`, in map order. -/
def RobotPathManager.getActiveRobots (m : RobotPathManager) : List Robot :=
  (m.robots.map Prod.snd).filter (fun r => r.isActive)

/-- A JS number that is a finite rational or ±Infinity (the bounding-box
seeds); no NaN arises in the bounding-box computation. -/
inductive ExtQ where
  | negInf : ExtQ
  | fin : ℚ → ExtQ
  | posInf : ExtQ
deriving DecidableEq

/-- `Math.min` on `ExtQ`. -/
def ExtQ.emin : ExtQ → ExtQ → ExtQ
  | negInf, _ => negInf
  | _, negInf => negInf
  | posInf, b => b
  | a, posInf => a
  | fin a, fin b => fin (min a b)

/-- `Math.max` on `ExtQ`. -/
def ExtQ.emax : ExtQ → ExtQ → ExtQ
  | posInf, _ => posInf
  | _, posInf => posInf
  | negInf, b => b
  | a, negInf => a
  | fin a, fin b => fin (max a b)

/-- A bounding box as returned by `getBoundingBox` (sentinel state:
`minX = minY = +∞`, `maxX = maxY = -∞`). -/
structure BBox where
  minX : ExtQ
  minY : ExtQ
  maxX : ExtQ
  maxY : ExtQ
deriving DecidableEq

/-- Fold one robot's valid points into the box. -/
def bboxScanRobot (r : Robot) (box : BBox) : BBox :=
  (List.range r.pointCount).foldl
    (fun box i =>
      let x := r.vertices (i * 2)
      let y := r.vertices (i * 2 + 1)
      { minX := box.minX.emin (.fin x)
        minY := box.minY.emin (.fin y)
        maxX := box.maxX.emax (.fin x)
        maxY := box.maxY.emax (.fin y) })
    box

/-- `getBoundingBox()`: full scan of every valid point of every robot from
the ±Infinity seeds. -/
def RobotPathManager.getBoundingBox (m : RobotPathManager) : BBox :=
  m.robots.foldl (fun box kv => bboxScanRobot kv.2 box)
    ⟨.posInf, .posInf, .negInf, .negInf⟩

/-- Derived view of a robot's valid stored points, oldest-first:
pairs `(vertices[2i], vertices[2i+1])` for `i < pointCount`. -/
def storedPositions (r : Robot) : List (ℚ × ℚ) :=
  (List.range r.pointCount).map (fun i => (r.vertices (2 * i), r.vertices (2 * i + 1)))

/-- Appending a batch of positions to one robot via `addPoint`'s body. -/
def addPointsFold (cap : Nat) (ps : List (ℚ × ℚ)) (r : Robot) : Robot :=
  ps.foldl (fun r p => addPointToRobot cap r p.1 p.2 none) r

/-- A store constructed with `maxRobots = 1` already holding robot 0, then
receiving a point for the out-of-bound entity id 3. -/
def c5Manager : RobotPathManager :=
  ((mkRobotPathManager 1 5).addPoint 0 1 1 none).addPoint 3 2 2 none

/-- A concrete batch of three positions for the ring-buffer witness. -/
def c3Points : List (ℚ × ℚ) := [(1, 1), (2, 2), (3, 3)]

/-!
### Buffer packer and renderer state: `WebGLRenderer`

`_packRobotsToStaging` packs every active robot's kept slice into the
pre-allocated staging arrays (`Float32Array(MAX_POINTS*2)` positions,
`Uint8Array(MAX_POINTS*4)` colors), modelled as functions updated by
segment writes.  Fields of the source class not touched by any claim
(GL handles, shaders, view transform, point size) are omitted.
-/

/-- One packed draw range `{start, count}`. -/
structure Draw where
  start : Nat
  count : Nat
deriving DecidableEq

/-- `Math.min(255, Math.max(0, Math.round(v * 255)))` (JS `Math.round` is
half-up, `⌊x + 1/2⌋`). -/
def u8OfFloat (q : ℚ) : Nat :=
  (min 255 (max 0 ⌊q * 255 + 1 / 2⌋)).toNat

/-- The mutable packing state: staging arrays, draw list, running offset. -/
structure PackState where
  pos : Nat → ℚ
  colU8 : Nat → Nat
  draws : List Draw
  write : Nat

/-- `dst.set(vals, off)`: overwrite the segment `[off, off + vals.length)`. -/
def writeSeg {α : Type} (f : Nat → α) (off : Nat) (vals : List α) : Nat → α :=
  fun j => if off ≤ j ∧ j < off + vals.length then vals.getD (j - off) (f j) else f j

/-- The kept position slice of one robot: `vertices.subarray((count-keep)*2,
count*2)` as a flat list of `2*keep` floats. -/
def tailPositions (r : Robot) (keep : Nat) : List ℚ :=
  (List.range (2 * keep)).map (fun j => r.vertices (2 * (r.pointCount - keep) + j))

/-- The kept color slice, converted float→u8 per channel during the pack. -/
def tailColorsU8 (r : Robot) (keep : Nat) : List Nat :=
  (List.range (4 * keep)).map (fun j => u8OfFloat (r.colors (4 * (r.pointCount - keep) + j)))

/-- The per-robot loop of `_packRobotsToStaging`: zero-count robots get a
`{start, count: 0}` draw; others contribute `keep` tail points (capped by
`perCap` when set), and the loop breaks once `write >= MAX_POINTS`. -/
def packLoop (maxPoints : Nat) (perCap : Option Nat) :
    List Robot → PackState → PackState
  | [], s => s
  | r :: rs, s =>
    if r.pointCount = 0 then
      packLoop maxPoints perCap rs { s with draws := s.draws ++ [⟨s.write, 0⟩] }
    else
      let keep := match perCap with
        | none => r.pointCount
        | some c => min r.pointCount c
      let s1 : PackState :=
        { pos := writeSeg s.pos (2 * s.write) (tailPositions r keep)
          colU8 := writeSeg s.colU8 (4 * s.write) (tailColorsU8 r keep)
          draws := s.draws ++ [⟨s.write, keep⟩]
          write := s.write + keep }
      if maxPoints ≤ s1.write then s1 else packLoop maxPoints perCap rs s1

/-- `_packRobotsToStaging`: over-budget packs get a per-robot cap of
`max(1, floor(MAX_POINTS / max(1, robots.length)))` (else no cap,
modelled as `none` for `Infinity`), keeping tail slices. -/
def packRobotsToStaging (maxPoints : Nat) (robots : List Robot)
    (pos0 : Nat → ℚ) (col0 : Nat → Nat) : PackState :=
  let total := (robots.map Robot.pointCount).sum
  let perCap : Option Nat :=
    if maxPoints < total then some (max 1 (maxPoints / max 1 robots.length))
    else none
  packLoop maxPoints perCap robots ⟨pos0, col0, [], 0⟩

/-- The draw list a fair-budget pack produces from offset `w` with cap `c`. -/
def drawsFrom (w c : Nat) : List Robot → List Draw
  | [] => []
  | r :: rs => ⟨w, min r.pointCount c⟩ :: drawsFrom (w + min r.pointCount c) c rs

/-- Total points kept under per-robot cap `c`. -/
def keepSum (c : Nat) (rs : List Robot) : Nat :=
  (rs.map (fun r => min r.pointCount c)).sum

/-- The ring-buffer bookkeeping kept for compatibility in the renderer. -/
structure RingBufferState where
  writeIndex : Nat
  pointCount : Nat
  dirty : Bool

/-- `this.dataBounds` of the renderer. -/
structure DataBounds where
  minX : ExtQ
  maxX : ExtQ
  minY : ExtQ
  maxY : ExtQ
  initialized : Bool

/-- The renderer state relevant to packing and the dirty flag. -/
structure WebGLRenderer where
  MAX_POINTS : Nat
  robotManager : RobotPathManager
  ringBuffer : RingBufferState
  needsPack : Bool
  gpuDirty : Bool
  stagingPos : Nat → ℚ
  stagingColorU8 : Nat → Nat
  packedDraws : List Draw
  packedTotal : Nat
  dataBounds : DataBounds

/-- The renderer constructor: `MAX_POINTS = 120000`,
`new RobotPathManager(10, 50000)`, clean flags, zeroed staging. -/
def mkWebGLRenderer : WebGLRenderer where
  MAX_POINTS := 120000
  robotManager := mkRobotPathManager 10 50000
  ringBuffer := ⟨0, 0, false⟩
  needsPack := false
  gpuDirty := false
  stagingPos := fun _ => 0
  stagingColorU8 := fun _ => 0
  packedDraws := []
  packedTotal := 0
  dataBounds := ⟨.posInf, .negInf, .posInf, .negInf, false⟩

/-- `updatePoints(data)` after parsing: early return on an empty batch,
otherwise `robotManager.addPoints`, bounding-box refresh, and
`_needsPack = true`. -/
def WebGLRenderer.updatePoints (s : WebGLRenderer) (pts : List RPoint) :
    WebGLRenderer :=
  if pts.length = 0 then s
  else
    let mgr := s.robotManager.addPoints pts
    let bounds := mgr.getBoundingBox
    let db : DataBounds :=
      if bounds.minX ≠ ExtQ.posInf then
        ⟨bounds.minX, bounds.maxX, bounds.minY, bounds.maxY, true⟩
      else s.dataBounds
    { s with robotManager := mgr, dataBounds := db, needsPack := true }

/-- `_packRobotsToStaging()` at the renderer level: pack the active robots
into the staging arrays and clear `_needsPack`. -/
def WebGLRenderer.packToStaging (s : WebGLRenderer) : WebGLRenderer :=
  let ps := packRobotsToStaging s.MAX_POINTS s.robotManager.getActiveRobots
    s.stagingPos s.stagingColorU8
  { s with
    stagingPos := ps.pos
    stagingColorU8 := ps.colU8
    packedDraws := ps.draws
    packedTotal := ps.write
    needsPack := false }

/-- The GPU upload step of `renderRobotPaths`: when `_gpuDirty` and points
are packed, upload the staging slices and clear `_gpuDirty`. -/
def WebGLRenderer.uploadStep (s : WebGLRenderer) : WebGLRenderer :=
  if s.gpuDirty = true ∧ 0 < s.packedTotal then { s with gpuDirty := false } else s

/-- The state effects of `renderRobotPaths()`: early return without robots
or bounds; re-pack only when `_needsPack`; then the GPU upload step. -/
def WebGLRenderer.renderRobotPaths (s : WebGLRenderer) : WebGLRenderer :=
  if s.robotManager.getActiveRobots.length = 0 ∨ s.dataBounds.initialized = false then s
  else
    WebGLRenderer.uploadStep
      (if s.needsPack then { s.packToStaging with gpuDirty := true } else s)

/-- `clear()`: reset the ring buffer, `robotManager.clearAll()`, reset the
data bounds.  NOTE: the source does not touch `_needsPack`, the staging
arrays, or `_packedDraws` here. -/
def WebGLRenderer.clear (s : WebGLRenderer) : WebGLRenderer :=
  { s with
    ringBuffer := ⟨0, 0, false⟩
    robotManager := s.robotManager.clearAll
    dataBounds := ⟨.posInf, .negInf, .posInf, .negInf, false⟩ }

/-- A synthetic robot with `count` stored points and recognisable vertex
values `base + j`. -/
def c4Robot (count : Nat) (base : ℚ) : Robot where
  id := 0
  color := default
  vertices := fun j => base + j
  colors := fun _ => 0
  pointCount := count
  startPosition := none
  currentPosition := none
  isActive := true

theorem jsOr_zero (v : ℚ) : jsOr v 0 = v := by
  unfold jsOr; split <;> simp_all

theorem jsOr_of_ne (v d : ℚ) (h : v ≠ 0) : jsOr v d = v := by
  unfold jsOr; simp [h]

theorem encF32_at (ps : List WirePoint) (i c : Nat) (hi : i < ps.length) (hc : c < 7) :
    encF32 ps (4 + 28 * i + 4 * c) = encodeField (ps.getD i default) c := by
  have h1 : ¬ (4 + 28 * i + 4 * c < 4) := by omega
  have h2 : (4 + 28 * i + 4 * c - 4) % 4 = 0 := by omega
  have ha : (4 + 28 * i + 4 * c - 4) / 4 = 7 * i + c := by omega
  have h3 : (7 * i + c) / 7 = i := by omega
  have h4 : (7 * i + c) % 7 = c := by omega
  simp only [encF32, h1, if_false, ha, h2, h3, h4, true_and, hi, if_pos, and_true]

theorem readExt_encode (ps : List WirePoint) (i : Nat) (hi : i < ps.length) :
    readExtPoint (pointsToArrayBuffer ps) i = roundtripPoint (ps.getD i default) := by
  have e0 : encF32 ps (4 + 28 * i) = encodeField (ps.getD i default) 0 :=
    encF32_at ps i 0 hi (by omega)
  have e1 : encF32 ps (4 + 28 * i + 4) = encodeField (ps.getD i default) 1 :=
    encF32_at ps i 1 hi (by omega)
  have e2 : encF32 ps (4 + 28 * i + 8) = encodeField (ps.getD i default) 2 :=
    encF32_at ps i 2 hi (by omega)
  have e3 : encF32 ps (4 + 28 * i + 12) = encodeField (ps.getD i default) 3 :=
    encF32_at ps i 3 hi (by omega)
  have e4 : encF32 ps (4 + 28 * i + 16) = encodeField (ps.getD i default) 4 :=
    encF32_at ps i 4 hi (by omega)
  have e5 : encF32 ps (4 + 28 * i + 20) = encodeField (ps.getD i default) 5 :=
    encF32_at ps i 5 hi (by omega)
  have e6 : encF32 ps (4 + 28 * i + 24) = encodeField (ps.getD i default) 6 :=
    encF32_at ps i 6 hi (by omega)
  simp only [readExtPoint, pointsToArrayBuffer, roundtripPoint, WirePoint.mk.injEq]
  exact ⟨e0, e1, e2, e3, e4, e5, e6⟩

theorem roundtripPoint_eq_self (p : WirePoint)
    (h : p.r ≠ 0 ∧ p.g ≠ 0 ∧ p.b ≠ 0 ∧ p.a ≠ 0) : roundtripPoint p = p := by
  obtain ⟨hr, hg, hb, ha⟩ := h
  simp only [roundtripPoint, jsOr_zero, jsOr_of_ne _ _ hr, jsOr_of_ne _ _ hg,
    jsOr_of_ne _ _ hb, jsOr_of_ne _ _ ha]

/-- C1 (amended): `decode(encode(points))` reproduces `points` exactly for
every list of points whose color channels `r, g, b, a` are all nonzero; a
zero channel is replaced by `1.0` by the `||`-defaulting in
`pointsToArrayBuffer` (see the counterexample). -/
theorem C1_roundtrip_nonzero_colors (ps : List WirePoint)
    (h : ∀ p ∈ ps, p.r ≠ 0 ∧ p.g ≠ 0 ∧ p.b ≠ 0 ∧ p.a ≠ 0) :
    parseRawPoints (pointsToArrayBuffer ps) = .ok ps := by
  have hbl : (pointsToArrayBuffer ps).byteLength = 4 + ps.length * 28 := rfl
  have hcnt : (pointsToArrayBuffer ps).u32At 0 = ps.length := rfl
  unfold parseRawPoints
  rw [if_neg (by omega), hcnt, hbl]
  rw [if_pos (by omega)]
  congr 1
  apply List.ext_getElem
  · simp
  · intro i h1 h2
    simp only [List.getElem_map, List.getElem_range]
    have hi : i < ps.length := by simpa using h2
    rw [readExt_encode ps i hi, List.getD_eq_getElem ps default hi]
    exact roundtripPoint_eq_self _ (h _ (ps.getElem_mem hi))

/-- C1 witness: a point with all-nonzero color channels round-trips exactly. -/
theorem C1_roundtrip_nonzero_colors_witness :
    parseRawPoints (pointsToArrayBuffer [⟨1, 2, 1, 1, 1, 1, 3⟩]) =
      .ok [⟨1, 2, 1, 1, 1, 1, 3⟩] :=
  C1_roundtrip_nonzero_colors [⟨1, 2, 1, 1, 1, 1, 3⟩] (by decide)

/-- C1 counterexample: encoding a point with zero `g`/`b` channels and
decoding it yields `g = b = 1`, not the original point — the round-trip
claim fails as stated. -/
theorem C1_counterexample :
    parseRawPoints (pointsToArrayBuffer [c1Point]) ≠ .ok [c1Point] ∧
    parseRawPoints (pointsToArrayBuffer [c1Point]) = .ok [⟨0, 0, 1, 1, 1, 1, 0⟩] := by
  decide

/-- C2 (amended): for every buffer with a full 4-byte header and a payload
whose byte length is a multiple of 4, layout selection is by exact byte-size
match, in order: extended (28 B/point), then legacy (12 B/point, u8 colors
`/255`, `robotId` 0), then the flat-f32 fallback decoding
`floor(floor(payloadBytes/4)/7)` extended-format points; at `count = 0` both
size formulas hold and the extended branch deterministically wins, yielding
`[]`.  (Buffers failing the alignment condition make the fallback throw a
`RangeError` — see the counterexample.) -/
theorem C2_layout_selection (b : WireBuffer) (hlen : 4 ≤ b.byteLength)
    (halign : (b.byteLength - 4) % 4 = 0) :
    (b.byteLength - 4 = b.u32At 0 * 28 →
        parseRawPoints b = .ok ((List.range (b.u32At 0)).map (readExtPoint b))) ∧
    (b.byteLength - 4 ≠ b.u32At 0 * 28 → b.byteLength - 4 = b.u32At 0 * 12 →
        parseRawPoints b = .ok ((List.range (b.u32At 0)).map (readLegacyPoint b)) ∧
        ∀ p ∈ (List.range (b.u32At 0)).map (readLegacyPoint b), p.robotId = 0) ∧
    (b.byteLength - 4 ≠ b.u32At 0 * 28 → b.byteLength - 4 ≠ b.u32At 0 * 12 →
        parseRawPoints b =
          .ok ((List.range ((b.byteLength - 4) / 4 / 7)).map (readExtPoint b))) ∧
    (b.u32At 0 = 0 → b.byteLength = 4 → parseRawPoints b = .ok []) := by
  refine ⟨?_, ?_, ?_, ?_⟩
  · intro h28
    unfold parseRawPoints
    rw [if_neg (by omega), if_pos h28]
  · intro h28 h12
    unfold parseRawPoints
    rw [if_neg (by omega), if_neg h28, if_pos h12]
    refine ⟨rfl, ?_⟩
    intro p hp
    simp only [List.mem_map] at hp
    obtain ⟨i, _, rfl⟩ := hp
    rfl
  · intro h28 h12
    unfold parseRawPoints
    rw [if_neg (by omega), if_neg h28, if_neg h12, if_pos halign]
  · intro hc hb
    unfold parseRawPoints
    rw [if_neg (by omega), if_pos (by omega), hc]
    simp

/-- C2 witness: the legacy branch of the selection theorem at a concrete
16-byte buffer: one point, u8 colors divided by 255, `robotId` 0. -/
theorem C2_layout_selection_witness :
    parseRawPoints c2Legacy =
      .ok [⟨4, 8, 12 / 255, 13 / 255, 14 / 255, 15 / 255, 0⟩] := by
  have h := ((C2_layout_selection c2Legacy (by decide) (by decide)).2.1
    (by decide) (by decide)).1
  refine h.trans ?_
  norm_num [c2Legacy, readLegacyPoint, List.range_succ]

/-- C2 counterexample: on a buffer whose payload length is not a multiple of
4 the fallback path throws a `RangeError` instead of decoding
`floor(payloadFloatCount/7) = 0` points non-fatally. -/
theorem C2_counterexample :
    parseRawPoints c2Bad =
      .error "RangeError: byte length of Float32Array should be a multiple of 4" ∧
    parseRawPoints c2Bad ≠ .ok [] := by
  decide

/-- C7: `applyLOD` is the identity when the point list has fewer than 100
points or the scale is strictly greater than 0.5. -/
theorem C7_applyLOD_identity (mathLog : ℚ → ℚ) (lodThreshold : ℚ)
    (points : List WirePoint) (scale : ℚ)
    (h : points.length < 100 ∨ 1 / 2 < scale) :
    applyLOD mathLog lodThreshold points scale = points := by
  unfold applyLOD
  rw [if_pos h]

/-- C7 witness: a one-point list (and also a scale above 0.5) is returned
unchanged. -/
theorem C7_applyLOD_identity_witness :
    applyLOD (fun _ => 0) 2 [⟨1, 2, 1, 1, 1, 1, 3⟩] 3 = [⟨1, 2, 1, 1, 1, 1, 3⟩] :=
  C7_applyLOD_identity (fun _ => 0) 2 [⟨1, 2, 1, 1, 1, 1, 3⟩] 3 (by norm_num)

theorem collectCell_sound (points : List WirePoint) (seed : WirePoint) (dSq : ℚ)
    (idxs : List Nat) (acc : List Nat × List Nat)
    (hacc : ∀ j ∈ acc.1, distSq seed (points.getD j default) ≤ dSq) :
    ∀ j ∈ (collectCell points seed dSq idxs acc).1,
      distSq seed (points.getD j default) ≤ dSq := by
  induction idxs generalizing acc with
  | nil => exact hacc
  | cons j rest ih =>
    obtain ⟨cluster, processed⟩ := acc
    simp only [collectCell]
    split
    · exact ih _ hacc
    · split
      · refine ih _ ?_
        intro x hx
        rcases List.mem_append.mp hx with hx | hx
        · exact hacc x hx
        · rw [List.mem_singleton.mp hx]
          assumption
      · exact ih _ hacc

theorem collectNeighbors_sound (points : List WirePoint) (seed : WirePoint)
    (dSq : ℚ) (g : Grid) (keys : List (ℤ × ℤ)) (acc : List Nat × List Nat)
    (hacc : ∀ j ∈ acc.1, distSq seed (points.getD j default) ≤ dSq) :
    ∀ j ∈ (collectNeighbors points seed dSq g keys acc).1,
      distSq seed (points.getD j default) ≤ dSq := by
  induction keys generalizing acc with
  | nil => exact hacc
  | cons key rest ih =>
    exact ih _ (collectCell_sound points seed dSq (gridFind g key) acc hacc)

theorem lodLoop_sound (points : List WirePoint) (dSq cellSize : ℚ) (g : Grid)
    (order processed : List Nat) :
    ∀ cl ∈ lodLoop points dSq cellSize g order processed, ∀ j ∈ cl.2,
      distSq (points.getD cl.1 default) (points.getD j default) ≤ dSq := by
  induction order generalizing processed with
  | nil => simp [lodLoop]
  | cons i rest ih =>
    simp only [lodLoop]
    split
    · exact ih _
    · intro cl hcl
      rcases List.mem_cons.mp hcl with hcl | hcl
      · subst hcl
        exact collectNeighbors_sound points _ dSq g _ _ (by simp)
      · exact ih _ cl hcl

theorem distSq_pair_bound (s a b : WirePoint) (dSq : ℚ)
    (ha : distSq s a ≤ dSq) (hb : distSq s b ≤ dSq) :
    distSq a b ≤ 4 * dSq := by
  unfold distSq at *
  nlinarith [sq_nonneg (s.x - a.x + (s.x - b.x)), sq_nonneg (s.y - a.y + (s.y - b.y))]

theorem distSq_self (p : WirePoint) : distSq p p = 0 := by
  simp [distSq]

/-- C6: whenever `applyLOD` actually clusters (≥ 100 points, scale ≤ 0.5),
its output is the centroid of each grid cluster, every member of a cluster
lies within merge distance `d = lodThreshold / scale` of the cluster's seed
(squared distance ≤ d²), and hence no two points of one cluster are more
than `2d` apart (squared distance ≤ 4·d² = (2d)²). -/
theorem C6_lod_grid_soundness (mathLog : ℚ → ℚ) (lodThreshold : ℚ)
    (points : List WirePoint) (scale : ℚ)
    (h100 : 100 ≤ points.length) (hscale : scale ≤ 1 / 2) :
    applyLOD mathLog lodThreshold points scale =
      (lodClusters points (lodThreshold / scale * 2)
        (lodThreshold / scale * (lodThreshold / scale))).map
        (centroidOf mathLog points) ∧
    ∀ cl ∈ lodClusters points (lodThreshold / scale * 2)
        (lodThreshold / scale * (lodThreshold / scale)),
      (∀ j ∈ cl.2, distSq (points.getD cl.1 default) (points.getD j default) ≤
        lodThreshold / scale * (lodThreshold / scale)) ∧
      (∀ i ∈ cl.1 :: cl.2, ∀ j ∈ cl.1 :: cl.2,
        distSq (points.getD i default) (points.getD j default) ≤
          4 * (lodThreshold / scale * (lodThreshold / scale))) := by
  have hd : (0 : ℚ) ≤ lodThreshold / scale * (lodThreshold / scale) :=
    mul_self_nonneg _
  constructor
  · unfold applyLOD
    rw [if_neg (by push_neg; exact ⟨by omega, hscale⟩)]
  · intro cl hcl
    have hsound := lodLoop_sound points
      (lodThreshold / scale * (lodThreshold / scale))
      (lodThreshold / scale * 2) (buildGrid points (lodThreshold / scale * 2))
      _ [] cl hcl
    refine ⟨hsound, ?_⟩
    have hall : ∀ x ∈ cl.1 :: cl.2,
        distSq (points.getD cl.1 default) (points.getD x default) ≤
          lodThreshold / scale * (lodThreshold / scale) := by
      intro x hx
      rcases List.mem_cons.mp hx with hx | hx
      · rw [hx, distSq_self]
        exact hd
      · exact hsound x hx
    intro i hi j hj
    exact distSq_pair_bound _ _ _ _ (hall i hi) (hall j hj)

/-- C6 witness: on 100 coincident points at scale 1/2 the hypotheses hold
and `applyLOD` equals the centroid map over the computed clusters. -/
theorem C6_lod_grid_soundness_witness :
    applyLOD (fun _ => 0) 2 (List.replicate 100 (⟨0, 0, 0, 0, 0, 0, 0⟩ : WirePoint)) (1 / 2) =
      (lodClusters (List.replicate 100 (⟨0, 0, 0, 0, 0, 0, 0⟩ : WirePoint)) (2 / (1 / 2) * 2)
        (2 / (1 / 2) * (2 / (1 / 2)))).map
        (centroidOf (fun _ => 0) (List.replicate 100 (⟨0, 0, 0, 0, 0, 0, 0⟩ : WirePoint))) :=
  (C6_lod_grid_soundness (fun _ => 0) 2
    (List.replicate 100 (⟨0, 0, 0, 0, 0, 0, 0⟩ : WirePoint)) (1 / 2)
    (by simp) (by norm_num)).1

theorem bboxScanRobot_zero (r : Robot) (box : BBox) (h : r.pointCount = 0) :
    bboxScanRobot r box = box := by
  simp [bboxScanRobot, h]

theorem bboxFold_all_empty (l : List (Nat × Robot)) (box : BBox)
    (h : ∀ kv ∈ l, kv.2.pointCount = 0) :
    l.foldl (fun box kv => bboxScanRobot kv.2 box) box = box := by
  induction l generalizing box with
  | nil => rfl
  | cons kv rest ih =>
    rw [List.foldl_cons, bboxScanRobot_zero _ _ (h kv (by simp))]
    exact ih box (fun kv hkv => h kv (by simp [hkv]))

/-- C9: `getBoundingBox` on a store in which no robot has any points returns
the uninitialized sentinel (`minX = minY = +∞`, `maxX = maxY = -∞`); after
exactly one point `(5,5)` is added to a fresh manager it returns the
degenerate box `{5, 5, 5, 5}`. -/
theorem C9_bounding_box :
    (∀ m : RobotPathManager, (∀ kv ∈ m.robots, kv.2.pointCount = 0) →
      m.getBoundingBox = ⟨.posInf, .posInf, .negInf, .negInf⟩) ∧
    ((mkRobotPathManager 10 50000).addPoint 0 5 5 none).getBoundingBox =
      ⟨.fin 5, .fin 5, .fin 5, .fin 5⟩ := by
  constructor
  · intro m h
    exact bboxFold_all_empty m.robots _ h
  · decide

/-- C9 witness: the first clause applied to a concrete empty store. -/
theorem C9_bounding_box_witness :
    (mkRobotPathManager 10 50000).getBoundingBox =
      ⟨.posInf, .posInf, .negInf, .negInf⟩ :=
  C9_bounding_box.1 (mkRobotPathManager 10 50000) (by simp [mkRobotPathManager])

theorem findRobot_none_forall (l : List (Nat × Robot)) (id : Nat)
    (h : findRobot l id = none) : ∀ kv ∈ l, kv.1 ≠ id := by
  induction l with
  | nil => simp
  | cons kv rest ih =>
    intro kv2 hkv2
    simp only [findRobot] at h
    rcases List.mem_cons.mp hkv2 with hkv2 | hkv2
    · subst hkv2
      intro hEq
      rw [if_pos hEq] at h
      exact Option.some_ne_none _ h
    · split at h
      · exact absurd h (Option.some_ne_none _)
      · exact ih h kv2 hkv2

theorem findRobot_map_set_absent (l : List (Nat × Robot)) (id : Nat) (r : Robot)
    (h : ∀ kv ∈ l, kv.1 ≠ id) :
    l.map (fun kv => if kv.1 = id then (kv.1, r) else kv) = l := by
  induction l with
  | nil => rfl
  | cons kv rest ih =>
    rw [List.map_cons, if_neg (h kv (by simp)),
      ih (fun kv2 hkv2 => h kv2 (by simp [hkv2]))]

theorem findRobot_append_right (l₁ l₂ : List (Nat × Robot)) (id : Nat)
    (h : ∀ kv ∈ l₁, kv.1 ≠ id) :
    findRobot (l₁ ++ l₂) id = findRobot l₂ id := by
  induction l₁ with
  | nil => rfl
  | cons kv rest ih =>
    simp only [List.cons_append, findRobot, if_neg (h kv (by simp))]
    exact ih (fun kv2 hkv2 => h kv2 (by simp [hkv2]))

/-- C5 (amended): `addPoint` never enforces the `maxRobots` bound: even when
the store already holds `maxRobots` (or more) robots, a point for a brand-new
entity id lazily creates one more ring buffer and stores the point in it
(nothing is dropped). -/
theorem C5_no_max_robots_bound (m : RobotPathManager) (robotId : Nat)
    (x y : ℚ) (color : Option Color4)
    (hnew : mgrFind m robotId = none)
    (hfull : m.maxRobots ≤ m.robots.length)
    (hcap : 0 < m.maxPointsPerRobot) :
    (m.addPoint robotId x y color).robots.length = m.robots.length + 1 ∧
    ((mgrFind (m.addPoint robotId x y color) robotId).map Robot.pointCount) =
      some 1 := by
  have habs : ∀ kv ∈ m.robots, kv.1 ≠ robotId := findRobot_none_forall _ _ hnew
  have haddR : m.addRobot robotId =
      ({ m with robots := m.robots ++ [(robotId, freshRobot m robotId)] },
        freshRobot m robotId) := by
    unfold RobotPathManager.addRobot
    rw [hnew]
  constructor
  · simp [RobotPathManager.addPoint, haddR, mgrSet]
  · simp only [RobotPathManager.addPoint, haddR, mgrSet, mgrFind]
    rw [List.map_append,
      findRobot_append_right _ _ robotId (by
        intro kv hkv
        rw [List.mem_map] at hkv
        obtain ⟨kv0, hkv0, rfl⟩ := hkv
        rw [if_neg (habs kv0 hkv0)]
        exact habs kv0 hkv0)]
    have hnotle : ¬ (m.maxPointsPerRobot ≤ 0) := by omega
    simp only [List.map_cons, List.map_nil, if_true]
    simp only [findRobot, if_true]
    have hpc : (addPointToRobot m.maxPointsPerRobot (freshRobot m robotId) x y color).pointCount = 1 := by
      simp [addPointToRobot, freshRobot, hnotle]
    simp [hpc]

/-- C5 counterexample: with `maxRobots = 1` and one robot already present,
a point for the fresh id 3 is NOT silently dropped — a second ring buffer is
created and the point is stored in it. -/
theorem C5_counterexample :
    (mgrFind c5Manager 3).isSome = true ∧
    ((mgrFind c5Manager 3).map Robot.pointCount) = some 1 ∧
    c5Manager.robots.length = 2 ∧
    c5Manager.maxRobots = 1 := by
  decide

/-- C5 witness: the amended theorem applied to the concrete store with
`maxRobots = 1` already full. -/
theorem C5_no_max_robots_bound_witness :
    (((mkRobotPathManager 1 5).addPoint 0 1 1 none).addPoint 3 2 2 none).robots.length =
      ((mkRobotPathManager 1 5).addPoint 0 1 1 none).robots.length + 1 ∧
    ((mgrFind (((mkRobotPathManager 1 5).addPoint 0 1 1 none).addPoint 3 2 2 none) 3).map
        Robot.pointCount) = some 1 :=
  C5_no_max_robots_bound ((mkRobotPathManager 1 5).addPoint 0 1 1 none) 3 2 2 none
    rfl (by decide) (by decide)

theorem fnUpdate_at (f : Nat → ℚ) (i : Nat) (v : ℚ) : fnUpdate f i v i = v :=
  if_pos rfl

theorem fnUpdate_ne (f : Nat → ℚ) (i j : Nat) (v : ℚ) (h : j ≠ i) :
    fnUpdate f i v j = f j :=
  if_neg h

theorem addPointToRobot_full_spec (cap : Nat) (r : Robot) (x y : ℚ)
    (c : Option Color4) (h : cap ≤ r.pointCount) :
    (addPointToRobot cap r x y c).vertices =
      fnUpdate (fnUpdate (copyWithinLeft r.vertices (2 * cap) 2)
        (2 * (r.pointCount - 1)) x) (2 * (r.pointCount - 1) + 1) y ∧
    (addPointToRobot cap r x y c).pointCount = r.pointCount - 1 + 1 := by
  simp only [addPointToRobot]
  split
  · exact ⟨rfl, rfl⟩
  · next hn => exact absurd h hn

theorem addPointToRobot_room_spec (cap : Nat) (r : Robot) (x y : ℚ)
    (c : Option Color4) (h : ¬ cap ≤ r.pointCount) :
    (addPointToRobot cap r x y c).vertices =
      fnUpdate (fnUpdate r.vertices (2 * r.pointCount) x) (2 * r.pointCount + 1) y ∧
    (addPointToRobot cap r x y c).pointCount = r.pointCount + 1 := by
  simp only [addPointToRobot]
  split
  · next hn => exact absurd hn h
  · exact ⟨rfl, rfl⟩

theorem getD_append_lt {α : Type} (l l₂ : List α) (d : α) (j : Nat)
    (hj : j < l.length) : (l ++ l₂).getD j d = l.getD j d := by
  rw [List.getD_eq_getElem _ _ (by simp; omega), List.getD_eq_getElem _ _ hj]
  exact List.getElem_append_left hj

theorem getD_append_len {α : Type} (l : List α) (p d : α) :
    (l ++ [p]).getD l.length d = p := by
  rw [List.getD_eq_getElem _ _ (by simp)]
  rw [List.getElem_append_right (le_refl _)]
  simp

/-- One `addPoint` body step preserves the sliding-window characterisation:
if the robot currently stores the last `min qs.length cap` of the already
appended positions `qs`, it stores the last `min (qs+1) cap` of `qs ++ [p]`
afterwards (FIFO eviction of the oldest slot when full). -/
theorem addPointToRobot_window (cap : Nat) (hcap : 0 < cap) (x y : ℚ)
    (qs : List (ℚ × ℚ)) (r : Robot)
    (hn : r.pointCount = min qs.length cap)
    (hw : ∀ i, i < r.pointCount →
      (r.vertices (2 * i), r.vertices (2 * i + 1)) =
        qs.getD (qs.length - r.pointCount + i) (0, 0)) :
    (addPointToRobot cap r x y none).pointCount =
      min (qs ++ [(x, y)]).length cap ∧
    ∀ i, i < (addPointToRobot cap r x y none).pointCount →
      ((addPointToRobot cap r x y none).vertices (2 * i),
        (addPointToRobot cap r x y none).vertices (2 * i + 1)) =
        (qs ++ [(x, y)]).getD
          ((qs ++ [(x, y)]).length - (addPointToRobot cap r x y none).pointCount + i)
          (0, 0) := by
  by_cases hfull : cap ≤ r.pointCount
  · obtain ⟨hv, hc⟩ := addPointToRobot_full_spec cap r x y none hfull
    have hq : cap ≤ qs.length := by omega
    have hpc : r.pointCount = cap := by omega
    have hc2 : (addPointToRobot cap r x y none).pointCount = cap := by omega
    refine ⟨by simp; omega, ?_⟩
    intro i hi
    rw [hc2] at hi
    rw [hv, hc2, hpc]
    simp only [List.length_append, List.length_singleton]
    rcases Nat.lt_or_ge i (cap - 1) with hilt | hige
    · rw [show qs.length + 1 - cap + i = qs.length - cap + (i + 1) from by omega]
      rw [getD_append_lt _ _ _ _ (by omega)]
      simp only [fnUpdate, copyWithinLeft]
      rw [if_neg (show ¬ (2 * i = 2 * (cap - 1) + 1) from by omega)]
      rw [if_neg (show ¬ (2 * i = 2 * (cap - 1)) from by omega)]
      rw [if_pos (show 2 * i + 2 < 2 * cap from by omega)]
      rw [if_neg (show ¬ (2 * i + 1 = 2 * (cap - 1) + 1) from by omega)]
      rw [if_neg (show ¬ (2 * i + 1 = 2 * (cap - 1)) from by omega)]
      rw [if_pos (show 2 * i + 1 + 2 < 2 * cap from by omega)]
      have hstep := hw (i + 1) (by omega)
      rw [hpc] at hstep
      rw [show 2 * i + 2 = 2 * (i + 1) from by omega,
        show 2 * i + 1 + 2 = 2 * (i + 1) + 1 from by omega]
      exact hstep
    · have hieq : i = cap - 1 := by omega
      subst hieq
      rw [show qs.length + 1 - cap + (cap - 1) = qs.length from by omega]
      rw [getD_append_len]
      simp only [fnUpdate]
      rw [if_neg (show ¬ (2 * (cap - 1) = 2 * (cap - 1) + 1) from by omega)]
      simp
  · obtain ⟨hv, hc⟩ := addPointToRobot_room_spec cap r x y none hfull
    have hpc : r.pointCount = qs.length := by omega
    refine ⟨by simp; omega, ?_⟩
    intro i hi
    rw [hc] at hi
    rw [hv, hc]
    simp only [List.length_append, List.length_singleton]
    rw [show qs.length + 1 - (r.pointCount + 1) + i = i from by omega]
    rcases Nat.lt_or_ge i r.pointCount with hilt | hige
    · rw [getD_append_lt _ _ _ _ (by omega)]
      simp only [fnUpdate]
      rw [if_neg (show ¬ (2 * i = 2 * r.pointCount + 1) from by omega)]
      rw [if_neg (show ¬ (2 * i = 2 * r.pointCount) from by omega)]
      rw [if_neg (show ¬ (2 * i + 1 = 2 * r.pointCount + 1) from by omega)]
      rw [if_neg (show ¬ (2 * i + 1 = 2 * r.pointCount) from by omega)]
      have hstep := hw i hilt
      rw [show qs.length - r.pointCount + i = i from by omega] at hstep
      exact hstep
    · have hieq : i = r.pointCount := by omega
      subst hieq
      rw [show r.pointCount = qs.length from hpc, getD_append_len]
      rw [← hpc]
      simp only [fnUpdate]
      rw [if_neg (show ¬ (2 * r.pointCount = 2 * r.pointCount + 1) from by omega)]
      simp

/-- The window characterisation carried through a whole batch. -/
theorem addPointsFold_window (cap : Nat) (hcap : 0 < cap)
    (ps qs : List (ℚ × ℚ)) (r : Robot)
    (hn : r.pointCount = min qs.length cap)
    (hw : ∀ i, i < r.pointCount →
      (r.vertices (2 * i), r.vertices (2 * i + 1)) =
        qs.getD (qs.length - r.pointCount + i) (0, 0)) :
    (addPointsFold cap ps r).pointCount = min (qs ++ ps).length cap ∧
    ∀ i, i < (addPointsFold cap ps r).pointCount →
      ((addPointsFold cap ps r).vertices (2 * i),
        (addPointsFold cap ps r).vertices (2 * i + 1)) =
        (qs ++ ps).getD
          ((qs ++ ps).length - (addPointsFold cap ps r).pointCount + i) (0, 0) := by
  induction ps generalizing qs r with
  | nil =>
    simp only [addPointsFold, List.foldl_nil, List.append_nil]
    exact ⟨hn, hw⟩
  | cons p rest ih =>
    obtain ⟨hn1, hw1⟩ := addPointToRobot_window cap hcap p.1 p.2 qs r hn hw
    have hrec := ih (qs ++ [(p.1, p.2)]) (addPointToRobot cap r p.1 p.2 none) hn1 hw1
    have h2 : (qs ++ [(p.1, p.2)]) ++ rest = qs ++ (p :: rest) := by
      simp
    rw [h2] at hrec
    exact hrec

theorem findRobot_map_set_found (l : List (Nat × Robot)) (id : Nat) (r rNew : Robot)
    (h : findRobot l id = some r) :
    findRobot (l.map (fun kv => if kv.1 = id then (kv.1, rNew) else kv)) id =
      some rNew := by
  induction l with
  | nil => simp [findRobot] at h
  | cons kv rest ih =>
    by_cases hk : kv.1 = id
    · rw [List.map_cons, if_pos hk]
      simp only [findRobot, if_pos hk]
    · rw [List.map_cons, if_neg hk]
      simp only [findRobot] at h ⊢
      rw [if_neg hk] at h ⊢
      exact ih h

theorem mgrAddPoint_found (m : RobotPathManager) (id : Nat) (x y : ℚ)
    (c : Option Color4) (r : Robot) (h : mgrFind m id = some r) :
    mgrFind (m.addPoint id x y c) id =
      some (addPointToRobot m.maxPointsPerRobot r x y c) ∧
    (m.addPoint id x y c).maxPointsPerRobot = m.maxPointsPerRobot := by
  have haddR : m.addRobot id = (m, r) := by
    unfold RobotPathManager.addRobot
    rw [h]
  constructor
  · simp only [RobotPathManager.addPoint, haddR, mgrSet, mgrFind]
    exact findRobot_map_set_found m.robots id r _ h
  · simp [RobotPathManager.addPoint, haddR, mgrSet]

theorem mgrAddPoint_new (m : RobotPathManager) (id : Nat) (x y : ℚ)
    (c : Option Color4) (hnew : mgrFind m id = none) :
    mgrFind (m.addPoint id x y c) id =
      some (addPointToRobot m.maxPointsPerRobot (freshRobot m id) x y c) ∧
    (m.addPoint id x y c).maxPointsPerRobot = m.maxPointsPerRobot := by
  have habs : ∀ kv ∈ m.robots, kv.1 ≠ id := findRobot_none_forall _ _ hnew
  have haddR : m.addRobot id =
      ({ m with robots := m.robots ++ [(id, freshRobot m id)] }, freshRobot m id) := by
    unfold RobotPathManager.addRobot
    rw [hnew]
  constructor
  · simp only [RobotPathManager.addPoint, haddR, mgrSet, mgrFind]
    rw [List.map_append,
      findRobot_append_right _ _ id (by
        intro kv hkv
        rw [List.mem_map] at hkv
        obtain ⟨kv0, hkv0, rfl⟩ := hkv
        rw [if_neg (habs kv0 hkv0)]
        exact habs kv0 hkv0)]
    simp only [List.map_cons, List.map_nil, if_true]
    simp only [findRobot, if_true]
  · simp [RobotPathManager.addPoint, haddR, mgrSet]

theorem mgr_foldAdd (ps : List (ℚ × ℚ)) (m : RobotPathManager) (id : Nat)
    (r : Robot) (h : mgrFind m id = some r) :
    mgrFind (ps.foldl (fun m p => m.addPoint id p.1 p.2 none) m) id =
      some (addPointsFold m.maxPointsPerRobot ps r) ∧
    (ps.foldl (fun m p => m.addPoint id p.1 p.2 none) m).maxPointsPerRobot =
      m.maxPointsPerRobot := by
  induction ps generalizing m r with
  | nil => exact ⟨h, rfl⟩
  | cons p rest ih =>
    obtain ⟨h1, h2⟩ := mgrAddPoint_found m id p.1 p.2 none r h
    obtain ⟨h3, h4⟩ := ih (m.addPoint id p.1 p.2 none) _ h1
    rw [List.foldl_cons]
    refine ⟨?_, by rw [h4, h2]⟩
    rw [h3, h2]
    rfl

/-- C3: appending `C + k` points (k > 0) through `addPoint` to an initially
empty entity path of capacity `C` leaves exactly `C` stored points, and the
stored vertices are exactly the last `C` appended points, oldest-first
(pure FIFO eviction). -/
theorem C3_ring_buffer_fifo (C k rid : Nat) (ps : List (ℚ × ℚ))
    (hC : 0 < C) (hk : 0 < k) (hlen : ps.length = C + k) :
    ((mgrFind (ps.foldl (fun m p => m.addPoint rid p.1 p.2 none)
        (mkRobotPathManager 10 C)) rid).map Robot.pointCount = some C) ∧
    ((mgrFind (ps.foldl (fun m p => m.addPoint rid p.1 p.2 none)
        (mkRobotPathManager 10 C)) rid).map storedPositions = some (ps.drop k)) := by
  obtain ⟨p, rest, rfl⟩ : ∃ p rest, ps = p :: rest := by
    cases ps with
    | nil => simp at hlen; omega
    | cons a b => exact ⟨a, b, rfl⟩
  rw [List.foldl_cons]
  obtain ⟨h1, h2⟩ :=
    mgrAddPoint_new (mkRobotPathManager 10 C) rid p.1 p.2 none rfl
  obtain ⟨h3, h4⟩ := mgr_foldAdd rest _ rid _ h1
  rw [h3, h2]
  have hres : addPointsFold (mkRobotPathManager 10 C).maxPointsPerRobot rest
      (addPointToRobot (mkRobotPathManager 10 C).maxPointsPerRobot
        (freshRobot (mkRobotPathManager 10 C) rid) p.1 p.2 none) =
      addPointsFold C (p :: rest) (freshRobot (mkRobotPathManager 10 C) rid) := rfl
  rw [hres]
  obtain ⟨hn, hw⟩ := addPointsFold_window C hC (p :: rest) []
    (freshRobot (mkRobotPathManager 10 C) rid) (by simp [freshRobot]) (by simp [freshRobot])
  rw [List.nil_append] at hn hw
  have hcount : (addPointsFold C (p :: rest) (freshRobot (mkRobotPathManager 10 C) rid)).pointCount = C := by
    rw [hn, hlen]
    omega
  constructor
  · rw [Option.map_some', hcount]
  · rw [Option.map_some']
    congr 1
    apply List.ext_getElem
    · simp [storedPositions, hcount, hlen]
    · intro i hi1 hi2
      simp only [storedPositions, List.getElem_map, List.getElem_range,
        List.length_map, List.length_range, hcount] at hi1 ⊢
      have hpair := hw i (by rw [hcount]; omega)
      rw [hcount, hlen] at hpair
      rw [show C + k - C + i = k + i from by omega] at hpair
      rw [List.getElem_drop]
      rw [List.getD_eq_getElem _ _ (by rw [hlen]; omega)] at hpair
      exact hpair

/-- C3 witness: capacity 2, three appends — the buffer holds the last two
points in order. -/
theorem C3_ring_buffer_fifo_witness :
    (mgrFind (c3Points.foldl (fun m p => m.addPoint 0 p.1 p.2 none)
        (mkRobotPathManager 10 2)) 0).map Robot.pointCount = some 2 ∧
    (mgrFind (c3Points.foldl (fun m p => m.addPoint 0 p.1 p.2 none)
        (mkRobotPathManager 10 2)) 0).map storedPositions = some [(2, 2), (3, 3)] := by
  obtain ⟨ha, hb⟩ := C3_ring_buffer_fifo 2 1 0 c3Points
    (by omega) (by omega) (by decide)
  exact ⟨ha, hb.trans (by decide)⟩

theorem writeSeg_outside {α : Type} (f : Nat → α) (off : Nat) (vals : List α)
    (j : Nat) (h : j < off ∨ off + vals.length ≤ j) : writeSeg f off vals j = f j := by
  simp only [writeSeg]
  rw [if_neg (by omega)]

theorem writeSeg_inside {α : Type} (f : Nat → α) (off : Nat) (vals : List α)
    (i : Nat) (h : i < vals.length) :
    writeSeg f off vals (off + i) = vals.getD i (f (off + i)) := by
  simp only [writeSeg]
  rw [if_pos (by omega)]
  congr 1
  omega

theorem tailPositions_length (r : Robot) (keep : Nat) :
    (tailPositions r keep).length = 2 * keep := by
  simp [tailPositions]

theorem tailColorsU8_length (r : Robot) (keep : Nat) :
    (tailColorsU8 r keep).length = 4 * keep := by
  simp [tailColorsU8]

theorem packLoop_bounded_capped (M c : Nat) (hc : 1 ≤ c) (rs : List Robot)
    (s : PackState) (h : s.write + c * rs.length ≤ M) :
    (packLoop M (some c) rs s).write ≤ M ∧
    (∀ j, 2 * M ≤ j → (packLoop M (some c) rs s).pos j = s.pos j) ∧
    (∀ j, 4 * M ≤ j → (packLoop M (some c) rs s).colU8 j = s.colU8 j) := by
  induction rs generalizing s with
  | nil =>
    refine ⟨?_, fun j _ => rfl, fun j _ => rfl⟩
    show s.write ≤ M
    simp at h
    omega
  | cons r rest ih =>
    rw [List.length_cons, Nat.mul_succ] at h
    simp only [packLoop]
    split
    · exact ih { s with draws := s.draws ++ [⟨s.write, 0⟩] }
        (show s.write + c * rest.length ≤ M by omega)
    · have hkeep : min r.pointCount c ≤ c := Nat.min_le_right _ _
      split
      · next hbr =>
        have hbr2 : M ≤ s.write + min r.pointCount c := hbr
        refine ⟨show s.write + min r.pointCount c ≤ M by omega,
          fun j hj => ?_, fun j hj => ?_⟩
        · exact writeSeg_outside _ _ _ _ (by rw [tailPositions_length]; omega)
        · exact writeSeg_outside _ _ _ _ (by rw [tailColorsU8_length]; omega)
      · obtain ⟨ihw, ihp, ihc⟩ := ih
          { pos := writeSeg s.pos (2 * s.write) (tailPositions r (min r.pointCount c))
            colU8 := writeSeg s.colU8 (4 * s.write) (tailColorsU8 r (min r.pointCount c))
            draws := s.draws ++ [⟨s.write, min r.pointCount c⟩]
            write := s.write + min r.pointCount c }
          (show s.write + min r.pointCount c + c * rest.length ≤ M by omega)
        refine ⟨ihw, fun j hj => ?_, fun j hj => ?_⟩
        · rw [ihp j hj]
          exact writeSeg_outside _ _ _ _ (by rw [tailPositions_length]; omega)
        · rw [ihc j hj]
          exact writeSeg_outside _ _ _ _ (by rw [tailColorsU8_length]; omega)

theorem packLoop_bounded_one (M : Nat) (rs : List Robot) (s : PackState)
    (h : s.write < M) :
    (packLoop M (some 1) rs s).write ≤ M ∧
    (∀ j, 2 * M ≤ j → (packLoop M (some 1) rs s).pos j = s.pos j) ∧
    (∀ j, 4 * M ≤ j → (packLoop M (some 1) rs s).colU8 j = s.colU8 j) := by
  induction rs generalizing s with
  | nil => exact ⟨Nat.le_of_lt h, fun j _ => rfl, fun j _ => rfl⟩
  | cons r rest ih =>
    simp only [packLoop]
    split
    · exact ih { s with draws := s.draws ++ [⟨s.write, 0⟩] } h
    · next hnz =>
      have hkeep : min r.pointCount 1 = 1 := by omega
      rw [hkeep]
      split
      · refine ⟨show s.write + 1 ≤ M by omega, fun j hj => ?_, fun j hj => ?_⟩
        · exact writeSeg_outside _ _ _ _ (by rw [tailPositions_length]; omega)
        · exact writeSeg_outside _ _ _ _ (by rw [tailColorsU8_length]; omega)
      · next hbr =>
        have hbr2 : ¬ M ≤ s.write + 1 := hbr
        obtain ⟨ihw, ihp, ihc⟩ := ih
          { pos := writeSeg s.pos (2 * s.write) (tailPositions r 1)
            colU8 := writeSeg s.colU8 (4 * s.write) (tailColorsU8 r 1)
            draws := s.draws ++ [⟨s.write, 1⟩]
            write := s.write + 1 }
          (show s.write + 1 < M by omega)
        refine ⟨ihw, fun j hj => ?_, fun j hj => ?_⟩
        · rw [ihp j hj]
          exact writeSeg_outside _ _ _ _ (by rw [tailPositions_length]; omega)
        · rw [ihc j hj]
          exact writeSeg_outside _ _ _ _ (by rw [tailColorsU8_length]; omega)

theorem packLoop_bounded_none (M : Nat) (rs : List Robot) (s : PackState)
    (h : s.write + (rs.map Robot.pointCount).sum ≤ M) :
    (packLoop M none rs s).write ≤ M ∧
    (∀ j, 2 * M ≤ j → (packLoop M none rs s).pos j = s.pos j) ∧
    (∀ j, 4 * M ≤ j → (packLoop M none rs s).colU8 j = s.colU8 j) := by
  induction rs generalizing s with
  | nil =>
    refine ⟨?_, fun j _ => rfl, fun j _ => rfl⟩
    show s.write ≤ M
    simp at h
    omega
  | cons r rest ih =>
    rw [List.map_cons, List.sum_cons] at h
    simp only [packLoop]
    split
    · exact ih { s with draws := s.draws ++ [⟨s.write, 0⟩] }
        (show s.write + (rest.map Robot.pointCount).sum ≤ M by omega)
    · split
      · refine ⟨show s.write + r.pointCount ≤ M by omega,
          fun j hj => ?_, fun j hj => ?_⟩
        · exact writeSeg_outside _ _ _ _ (by rw [tailPositions_length]; omega)
        · exact writeSeg_outside _ _ _ _ (by rw [tailColorsU8_length]; omega)
      · obtain ⟨ihw, ihp, ihc⟩ := ih
          { pos := writeSeg s.pos (2 * s.write) (tailPositions r r.pointCount)
            colU8 := writeSeg s.colU8 (4 * s.write) (tailColorsU8 r r.pointCount)
            draws := s.draws ++ [⟨s.write, r.pointCount⟩]
            write := s.write + r.pointCount }
          (show s.write + r.pointCount + (rest.map Robot.pointCount).sum ≤ M by omega)
        refine ⟨ihw, fun j hj => ?_, fun j hj => ?_⟩
        · rw [ihp j hj]
          exact writeSeg_outside _ _ _ _ (by rw [tailPositions_length]; omega)
        · rw [ihc j hj]
          exact writeSeg_outside _ _ _ _ (by rw [tailColorsU8_length]; omega)

theorem packRobotsToStaging_bounded (M : Nat) (hM : 1 ≤ M) (robots : List Robot)
    (pos0 : Nat → ℚ) (col0 : Nat → Nat) :
    (packRobotsToStaging M robots pos0 col0).write ≤ M ∧
    (∀ j, 2 * M ≤ j → (packRobotsToStaging M robots pos0 col0).pos j = pos0 j) ∧
    (∀ j, 4 * M ≤ j → (packRobotsToStaging M robots pos0 col0).colU8 j = col0 j) := by
  simp only [packRobotsToStaging]
  split
  · rcases Nat.eq_zero_or_pos (M / max 1 robots.length) with hz | hz
    · have h1 : max 1 (M / max 1 robots.length) = 1 := by
        rw [hz]
        exact max_eq_left (Nat.zero_le 1)
      rw [h1]
      exact packLoop_bounded_one M robots ⟨pos0, col0, [], 0⟩ (show 0 < M from hM)
    · have h1 : max 1 (M / max 1 robots.length) = M / max 1 robots.length :=
        max_eq_right hz
      rw [h1]
      refine packLoop_bounded_capped M _ hz robots ⟨pos0, col0, [], 0⟩ ?_
      show 0 + M / max 1 robots.length * robots.length ≤ M
      rcases Nat.eq_zero_or_pos robots.length with h0 | h0
      · rw [h0]
        simp
      · have h2 : max 1 robots.length = robots.length := max_eq_right h0
        rw [Nat.zero_add, h2]
        exact Nat.div_mul_le_self M robots.length
  · next htot =>
    refine packLoop_bounded_none M robots ⟨pos0, col0, [], 0⟩ ?_
    show 0 + (robots.map Robot.pointCount).sum ≤ M
    omega

/-- C10: for every store state (any entity counts, including more entities
than the budget, where the cap clamps to 1 and the loop breaks at the
boundary), the packer writes at most `MAX_POINTS = 120000` points and never
touches the staging arrays beyond their allocated `MAX_POINTS*2` floats and
`MAX_POINTS*4` bytes. -/
theorem C10_pack_never_overflows (robots : List Robot) (pos0 : Nat → ℚ)
    (col0 : Nat → Nat) :
    (packRobotsToStaging 120000 robots pos0 col0).write ≤ 120000 ∧
    (∀ j, 2 * 120000 ≤ j →
      (packRobotsToStaging 120000 robots pos0 col0).pos j = pos0 j) ∧
    (∀ j, 4 * 120000 ≤ j →
      (packRobotsToStaging 120000 robots pos0 col0).colU8 j = col0 j) :=
  packRobotsToStaging_bounded 120000 (by omega) robots pos0 col0

/-- C10 witness: the bounds at a concrete over-budget store (150001 points
in one robot) and concrete out-of-range indices. -/
theorem C10_pack_never_overflows_witness :
    (packRobotsToStaging 120000 [c4Robot 150001 0] (fun _ => 0) (fun _ => 0)).write ≤ 120000 ∧
    (packRobotsToStaging 120000 [c4Robot 150001 0] (fun _ => 0) (fun _ => 0)).pos 240000 = 0 ∧
    (packRobotsToStaging 120000 [c4Robot 150001 0] (fun _ => 0) (fun _ => 0)).colU8 480005 = 0 := by
  obtain ⟨h1, h2, h3⟩ :=
    C10_pack_never_overflows [c4Robot 150001 0] (fun _ => 0) (fun _ => 0)
  exact ⟨h1, h2 240000 (by omega), h3 480005 (by omega)⟩

theorem packLoop_no_break (M c : Nat) (hc : 1 ≤ c) (r : Robot) (rs : List Robot)
    (s : PackState) (h : s.write + c * (rs.length + 1) ≤ M)
    (hnz : ¬ r.pointCount = 0) :
    packLoop M (some c) (r :: rs) s =
      packLoop M (some c) rs
        { pos := writeSeg s.pos (2 * s.write) (tailPositions r (min r.pointCount c))
          colU8 := writeSeg s.colU8 (4 * s.write) (tailColorsU8 r (min r.pointCount c))
          draws := s.draws ++ [⟨s.write, min r.pointCount c⟩]
          write := s.write + min r.pointCount c } := by
  rw [Nat.mul_succ] at h
  simp only [packLoop]
  rw [if_neg hnz]
  split
  · next hbr =>
    have hbr2 : M ≤ s.write + min r.pointCount c := hbr
    have hkc : min r.pointCount c ≤ c := Nat.min_le_right _ _
    have hz : c * rs.length = 0 := by omega
    have hlen0 : rs.length = 0 := by
      rcases Nat.mul_eq_zero.mp hz with h0 | h0
      · omega
      · exact h0
    rw [List.length_eq_zero.mp hlen0]
    rfl
  · rfl

theorem packLoop_exact (M c : Nat) (hc : 1 ≤ c) (rs : List Robot) (s : PackState)
    (h : s.write + c * rs.length ≤ M) :
    (packLoop M (some c) rs s).draws = s.draws ++ drawsFrom s.write c rs ∧
    (packLoop M (some c) rs s).write = s.write + keepSum c rs ∧
    (∀ j, j < 2 * s.write → (packLoop M (some c) rs s).pos j = s.pos j) ∧
    (List.range (2 * keepSum c rs)).map
        (fun i => (packLoop M (some c) rs s).pos (2 * s.write + i)) =
      (rs.map (fun r => tailPositions r (min r.pointCount c))).flatten := by
  induction rs generalizing s with
  | nil =>
    refine ⟨by simp [packLoop, drawsFrom], by simp [packLoop, keepSum],
      fun j _ => rfl, by simp [keepSum]⟩
  | cons r rest ih =>
    rw [List.length_cons, Nat.mul_succ] at h
    by_cases hz : r.pointCount = 0
    · rw [show packLoop M (some c) (r :: rest) s =
          packLoop M (some c) rest { s with draws := s.draws ++ [⟨s.write, 0⟩] } from by
        simp only [packLoop]; rw [if_pos hz]]
      obtain ⟨ihd, ihw, ihlow, ihseg⟩ :=
        ih { s with draws := s.draws ++ [⟨s.write, 0⟩] }
          (show s.write + c * rest.length ≤ M by omega)
      refine ⟨?_, ?_, fun j hj => ihlow j hj, ?_⟩
      · rw [ihd]
        show (s.draws ++ [⟨s.write, 0⟩]) ++ drawsFrom s.write c rest =
          s.draws ++ drawsFrom s.write c (r :: rest)
        rw [List.append_assoc]
        congr 1
        show ⟨s.write, 0⟩ :: drawsFrom s.write c rest = drawsFrom s.write c (r :: rest)
        simp [drawsFrom, hz]
      · rw [ihw]
        show s.write + keepSum c rest = s.write + keepSum c (r :: rest)
        simp [keepSum, hz]
      · have h1 : keepSum c (r :: rest) = keepSum c rest := by simp [keepSum, hz]
        rw [h1, List.map_cons, List.flatten_cons,
          show tailPositions r (min r.pointCount c) = [] from by
            simp [tailPositions, hz],
          List.nil_append]
        exact ihseg
    · rw [packLoop_no_break M c hc r rest s (by rw [Nat.mul_succ]; omega) hz]
      have hkc : min r.pointCount c ≤ c := Nat.min_le_right _ _
      obtain ⟨ihd, ihw, ihlow, ihseg⟩ := ih
        { pos := writeSeg s.pos (2 * s.write) (tailPositions r (min r.pointCount c))
          colU8 := writeSeg s.colU8 (4 * s.write) (tailColorsU8 r (min r.pointCount c))
          draws := s.draws ++ [⟨s.write, min r.pointCount c⟩]
          write := s.write + min r.pointCount c }
        (show s.write + min r.pointCount c + c * rest.length ≤ M by omega)
      have hseglen := congrArg List.length ihseg
      simp only [List.length_map, List.length_range] at hseglen
      refine ⟨?_, ?_, ?_, ?_⟩
      · rw [ihd]
        show (s.draws ++ [⟨s.write, min r.pointCount c⟩]) ++
            drawsFrom (s.write + min r.pointCount c) c rest =
          s.draws ++ drawsFrom s.write c (r :: rest)
        rw [List.append_assoc]
        rfl
      · rw [ihw]
        show s.write + min r.pointCount c + keepSum c rest =
          s.write + keepSum c (r :: rest)
        simp only [keepSum, List.map_cons, List.sum_cons]
        omega
      · intro j hj
        rw [ihlow j (show j < 2 * (s.write + min r.pointCount c) by omega)]
        exact writeSeg_outside _ _ _ _ (Or.inl hj)
      · apply List.ext_getElem
        · simp only [List.length_map, List.length_range, List.map_cons,
            List.flatten_cons, List.length_append, tailPositions_length,
            keepSum, List.sum_cons]
          simp only [keepSum] at hseglen
          omega
        · intro i h1 h2
          simp only [List.getElem_map, List.getElem_range]
          simp only [List.map_cons, List.flatten_cons] at h2 ⊢
          rcases Nat.lt_or_ge i (2 * min r.pointCount c) with hi | hi
          · rw [List.getElem_append_left (by rw [tailPositions_length]; omega)]
            rw [ihlow (2 * s.write + i)
              (show 2 * s.write + i < 2 * (s.write + min r.pointCount c) by omega)]
            show writeSeg s.pos (2 * s.write)
              (tailPositions r (min r.pointCount c)) (2 * s.write + i) = _
            rw [writeSeg_inside _ _ _ i (by rw [tailPositions_length]; omega)]
            rw [List.getD_eq_getElem _ _ (by rw [tailPositions_length]; omega)]
          · rw [List.getElem_append_right (by rw [tailPositions_length]; omega)]
            rw [List.getElem_of_eq ihseg.symm]
            simp only [List.getElem_map, List.getElem_range]
            congr 1
            rw [tailPositions_length]
            show 2 * s.write + i = 2 * (s.write + min r.pointCount c) + (i - 2 * min r.pointCount c)
            omega

/-- C4 (amended): when the active entities' total exceeds the budget and
`entityCount ≤ maxPoints` (so the clamp `max(1, ·)` is inactive), the pack
gives each entity the fair cap `floor(maxPoints/entityCount)`, emits one draw
of `min(ownCount, cap)` points per entity at consecutive offsets, and fills
the staging positions with each entity's most recent (tail) points in order.
(When `entityCount > maxPoints` the source clamps the cap to 1 and breaks
once the staging fills — see the counterexample.) -/
theorem C4_pack_recency_budget (M : Nat) (robots : List Robot) (pos0 : Nat → ℚ)
    (col0 : Nat → Nat) (htot : M < (robots.map Robot.pointCount).sum)
    (hn : robots.length ≤ M) :
    (packRobotsToStaging M robots pos0 col0).draws =
      drawsFrom 0 (M / robots.length) robots ∧
    (packRobotsToStaging M robots pos0 col0).write =
      keepSum (M / robots.length) robots ∧
    (List.range (2 * keepSum (M / robots.length) robots)).map
        (fun i => (packRobotsToStaging M robots pos0 col0).pos i) =
      (robots.map (fun r =>
        tailPositions r (min r.pointCount (M / robots.length)))).flatten := by
  have hne : robots ≠ [] := by
    intro h0
    rw [h0] at htot
    simp at htot
  have hlen1 : 1 ≤ robots.length := List.length_pos.mpr hne
  have hq1 : 1 ≤ M / robots.length := by
    rw [Nat.one_le_div_iff (by omega)]
    exact hn
  simp only [packRobotsToStaging]
  rw [if_pos htot, max_eq_right hlen1, max_eq_right hq1]
  obtain ⟨hd, hw, hlow, hseg⟩ := packLoop_exact M (M / robots.length) hq1 robots
    ⟨pos0, col0, [], 0⟩
    (show 0 + M / robots.length * robots.length ≤ M by
      rw [Nat.zero_add]
      exact Nat.div_mul_le_self M robots.length)
  refine ⟨?_, ?_, ?_⟩
  · rw [hd]
    show [] ++ drawsFrom 0 (M / robots.length) robots = _
    rw [List.nil_append]
  · rw [hw]
    show 0 + keepSum (M / robots.length) robots = keepSum (M / robots.length) robots
    rw [Nat.zero_add]
  · have h0 : ({ pos := pos0, colU8 := col0, draws := [], write := 0 } : PackState).write = 0 := rfl
    simp only [h0, Nat.mul_zero, Nat.zero_add] at hseg
    exact hseg

/-- C4 witness: 3 entities with counts {10, 5, 5}, budget 12 → cap 4, kept
counts {4, 4, 4}, draws at offsets 0, 4, 8, and the staging holds each
entity's tail slice in order. -/
theorem C4_pack_recency_budget_witness :
    (packRobotsToStaging 12 [c4Robot 10 0, c4Robot 5 100, c4Robot 5 200]
        (fun _ => 0) (fun _ => 0)).draws = [⟨0, 4⟩, ⟨4, 4⟩, ⟨8, 4⟩] ∧
    (packRobotsToStaging 12 [c4Robot 10 0, c4Robot 5 100, c4Robot 5 200]
        (fun _ => 0) (fun _ => 0)).write = 12 ∧
    (List.range 24).map
        (fun i => (packRobotsToStaging 12 [c4Robot 10 0, c4Robot 5 100, c4Robot 5 200]
          (fun _ => 0) (fun _ => 0)).pos i) =
      [12, 13, 14, 15, 16, 17, 18, 19,
       102, 103, 104, 105, 106, 107, 108, 109,
       202, 203, 204, 205, 206, 207, 208, 209] := by
  obtain ⟨hd, hw, hseg⟩ := C4_pack_recency_budget 12
    [c4Robot 10 0, c4Robot 5 100, c4Robot 5 200] (fun _ => 0) (fun _ => 0)
    (by decide) (by decide)
  refine ⟨hd.trans (by decide), hw.trans (by decide), ?_⟩
  have h24 : 2 * keepSum (12 / ([c4Robot 10 0, c4Robot 5 100, c4Robot 5 200] : List Robot).length)
      [c4Robot 10 0, c4Robot 5 100, c4Robot 5 200] = 24 := by decide
  rw [← h24]
  refine hseg.trans ?_
  norm_num [tailPositions, c4Robot, List.range_succ, keepSum]

/-- C4 counterexample: budget 2, three entities with one point each (total 3
exceeds the budget, entityCount 3 > maxPoints 2).  The claim's cap
`floor(2/3) = 0` would keep `min(own, 0) = 0` from every entity, but the
source clamps the cap to 1 and packs one point from each of the first two
entities, then breaks — the third entity gets no draw entry at all. -/
theorem C4_counterexample :
    (packRobotsToStaging 2 [c4Robot 1 0, c4Robot 1 10, c4Robot 1 20]
        (fun _ => 0) (fun _ => 0)).draws = [⟨0, 1⟩, ⟨1, 1⟩] ∧
    (packRobotsToStaging 2 [c4Robot 1 0, c4Robot 1 10, c4Robot 1 20]
        (fun _ => 0) (fun _ => 0)).draws.map Draw.count ≠
      [min 1 (2 / 3), min 1 (2 / 3), min 1 (2 / 3)] := by
  decide

/-- C8 (amended): the `_needsPack` dirty flag is set by `updatePoints`
(whenever the decoded batch is nonempty) and cleared by
`_packRobotsToStaging`; `clear()` does NOT set it (it leaves the flag
exactly as it was); and a render frame entered with the flag clear reuses
the previously packed staging buffers and draw list unchanged. -/
theorem C8_dirty_flag_discipline :
    (∀ (s : WebGLRenderer) (pts : List RPoint), pts ≠ [] →
      (s.updatePoints pts).needsPack = true) ∧
    (∀ s : WebGLRenderer, (s.clear).needsPack = s.needsPack) ∧
    (∀ s : WebGLRenderer, (s.packToStaging).needsPack = false) ∧
    (∀ s : WebGLRenderer, s.needsPack = false →
      (s.renderRobotPaths).stagingPos = s.stagingPos ∧
      (s.renderRobotPaths).stagingColorU8 = s.stagingColorU8 ∧
      (s.renderRobotPaths).packedDraws = s.packedDraws ∧
      (s.renderRobotPaths).packedTotal = s.packedTotal) := by
  refine ⟨?_, fun s => rfl, fun s => rfl, ?_⟩
  · intro s pts hne
    unfold WebGLRenderer.updatePoints
    rw [if_neg (by simpa using hne)]
  · intro s h
    have hupl : ∀ t : WebGLRenderer,
        (t.uploadStep).stagingPos = t.stagingPos ∧
        (t.uploadStep).stagingColorU8 = t.stagingColorU8 ∧
        (t.uploadStep).packedDraws = t.packedDraws ∧
        (t.uploadStep).packedTotal = t.packedTotal := by
      intro t
      unfold WebGLRenderer.uploadStep
      split
      · exact ⟨rfl, rfl, rfl, rfl⟩
      · exact ⟨rfl, rfl, rfl, rfl⟩
    unfold WebGLRenderer.renderRobotPaths
    split
    · exact ⟨rfl, rfl, rfl, rfl⟩
    · rw [if_neg (show ¬ (s.needsPack = true) by rw [h]; simp)]
      exact hupl s

/-- C8 counterexample: `clear()` does not set the dirty flag — on the fresh
renderer (flag `false`) the flag is still `false` after `clear()`, though
the claim says `clearAll` sets it. -/
theorem C8_counterexample :
    (mkWebGLRenderer.clear).needsPack = false ∧
    mkWebGLRenderer.needsPack = false := ⟨rfl, rfl⟩

/-- C8 witness: the amended flag discipline at concrete states. -/
theorem C8_dirty_flag_discipline_witness :
    (mkWebGLRenderer.updatePoints [⟨1, 2, 1, 1, 1, 1, 0⟩]).needsPack = true ∧
    (mkWebGLRenderer.clear).needsPack = mkWebGLRenderer.needsPack ∧
    (mkWebGLRenderer.packToStaging).needsPack = false ∧
    (mkWebGLRenderer.renderRobotPaths).packedDraws = mkWebGLRenderer.packedDraws :=
  ⟨C8_dirty_flag_discipline.1 mkWebGLRenderer [⟨1, 2, 1, 1, 1, 1, 0⟩] (by simp),
    C8_dirty_flag_discipline.2.1 mkWebGLRenderer,
    C8_dirty_flag_discipline.2.2.1 mkWebGLRenderer,
    (C8_dirty_flag_discipline.2.2.2 mkWebGLRenderer rfl).2.2.1⟩
